import Mathlib

/-!
Verification of the CS2 video-config settings engine (`src/main.py`,
class `CS2VideoConfigEditor`).  The Python functions `parse_config`,
`serialize_config`, `populate_widgets` and `collect_widget_values`, and
the `SETTINGS_SCHEMA` table, are shallowly embedded below.  Python's
`dict` (insertion-ordered, update-in-place) is modelled as an ordered
association list, Python strings as Lean `String`, and the single fixed
regular expression of the parser by a direct deterministic matcher.
-/

namespace CS2Cfg

/-- Characters matched by Python's `re` `\s` class on `str` patterns. -/
def isPySpace (c : Char) : Bool :=
  c == ' ' || c == '\t' || c == '\n' || c == '\r' || c == '\x0b' || c == '\x0c' ||
  c == '\x1c' || c == '\x1d' || c == '\x1e' || c == '\x1f' || c == '\x85' || c == '\xa0' ||
  c == '\u1680' || (decide ('\u2000' ≤ c) && decide (c ≤ '\u200a')) || c == '\u2028' ||
  c == '\u2029' || c == '\u202f' || c == '\u205f' || c == '\u3000'

/-- Line-boundary characters of Python's `str.splitlines`. -/
def pyLineBreak (c : Char) : Bool :=
  c == '\n' || c == '\r' || c == '\x0b' || c == '\x0c' || c == '\x1c' || c == '\x1d' ||
  c == '\x1e' || c == '\x85' || c == '\u2028' || c == '\u2029'

/-- Accumulator-based worker for `str.splitlines`: `acc` holds the chars of
the current line in reverse.  A `"\r\n"` sequence counts as one boundary;
a trailing boundary does not open a final empty line. -/
def splitlinesAux : List Char → List Char → List String
  | [], acc => if acc.isEmpty then [] else [String.mk acc.reverse]
  | c :: rest, acc =>
    if pyLineBreak c then
      match rest with
      | d :: rest2 =>
        if c = '\r' ∧ d = '\n' then String.mk acc.reverse :: splitlinesAux rest2 []
        else String.mk acc.reverse :: splitlinesAux (d :: rest2) []
      | [] => [String.mk acc.reverse]
    else splitlinesAux rest (c :: acc)

/-- Python `str.splitlines` (used by `parse_config` as `raw_txt.splitlines()`). -/
def splitlines (s : String) : List String :=
  splitlinesAux s.data []

/-- One quoted token of the parser's pattern: `"` followed by `[^"]+`
followed by `"`.  Returns the token body and the remaining input.
The greedy `[^"]+` run must stop exactly at the closing quote, so the
match is deterministic. -/
def quoteTok (l : List Char) : Option (List Char × List Char) :=
  match l with
  | [] => none
  | c :: rest =>
    if c = '"' then
      let t := rest.takeWhile (fun x => x != '"')
      let r := rest.dropWhile (fun x => x != '"')
      if t.isEmpty then none
      else if r.head? = some '"' then some (t, r.tail) else none
    else none

/-- The `\s+` part of the parser's pattern: one or more whitespace
characters, greedily; returns the remaining input. -/
def wsRun (l : List Char) : Option (List Char) :=
  let w := l.takeWhile isPySpace
  if w.isEmpty then none else some (l.dropWhile isPySpace)

/-- Attempt to match the regular expression of `parse_config`
(a quoted key, whitespace, a quoted value) anchored at the head of `l`:
first quoted token, then a whitespace run, then a second quoted token. -/
def matchPair (l : List Char) : Option (String × String × List Char) :=
  (quoteTok l).bind fun kr =>
    (wsRun kr.2).bind fun r2 =>
      (quoteTok r2).map fun vr => (String.mk kr.1, String.mk vr.1, vr.2)

/-- Fuel-indexed scanning loop of `re.finditer`: try to match at every
position, left to right, resuming after the end of each match.  The fuel
(always instantiated with the input length, which bounds the number of
steps) makes the recursion structural. -/
def findPairsAux : Nat → List Char → List (String × String)
  | 0, _ => []
  | _, [] => []
  | fuel + 1, c :: cs =>
    match matchPair (c :: cs) with
    | some (k, v, rest) => (k, v) :: findPairsAux fuel rest
    | none => findPairsAux fuel cs

/-- All non-overlapping matches of the parser's pair pattern in one line,
left to right, as `re.finditer` yields them. -/
def findPairs (l : List Char) : List (String × String) :=
  findPairsAux l.length l

/-- The ordered key/value mapping of the editor, a Python `dict[str, str]`
modelled as an association list in insertion order with unique keys. -/
abbrev Store := List (String × String)

/-- Python `config[k] = v` on an insertion-ordered `dict`: update in place
if the key exists, otherwise append at the end. -/
def insertOrUpdate : Store → String → String → Store
  | [], k, v => [(k, v)]
  | (k', v') :: rest, k, v =>
    if k' = k then (k', v) :: rest else (k', v') :: insertOrUpdate rest k v

/-- Python `d.get(key)` returning `None` when absent. -/
def lookupStore : Store → String → Option String
  | [], _ => none
  | (k', v') :: rest, k => if k' = k then some v' else lookupStore rest k

/-- The sequence of regex matches that `parse_config` iterates over:
every line of the input, each scanned left to right. -/
def extractPairs (raw : String) : List (String × String) :=
  ((splitlines raw).map (fun line => findPairs line.data)).flatten

/-- `parse_config` (src/main.py lines 465-474): scan every line for
`"key" <whitespace> "value"` pairs and enter each into the dict. -/
def parse_config (raw : String) : Store :=
  (splitlines raw).foldl
    (fun config line =>
      (findPairs line.data).foldl (fun c kv => insertOrUpdate c kv.1 kv.2) config)
    []

/-- The line emitted for one key/value pair by `serialize_config`:
a tab, the quoted key, two tabs, the quoted value. -/
def pairLine (kv : String × String) : String :=
  "\t\"" ++ kv.1 ++ "\"\t\t\"" ++ kv.2 ++ "\""

/-- Python `"\n".join(lines)`. -/
def joinLines : List String → String
  | [] => ""
  | [l] => l
  | l :: ls => l ++ "\n" ++ joinLines ls

/-- `serialize_config` (src/main.py lines 476-481): header line, opening
brace, one line per pair in store order, closing brace, joined by
newlines with no trailing newline. -/
def serialize_config (settings : Store) : String :=
  joinLines (["\"video.cfg\"", "\x7b"] ++ settings.map pairLine ++ ["\x7d"])

/-- Declared interpretation of a setting, the `"type"` tag of a
`SETTINGS_SCHEMA` entry: Python `bool`, `int` (with `min`, `max` and an
optional advisory `step`), `"enum"` (with its raw option strings), or
`"meta"`. -/
inductive SchemaKind where
  | boolKind : SchemaKind
  | intKind (mn mx : Int) (step : Option Int) : SchemaKind
  | enumKind (options : List String) : SchemaKind
  | metaKind : SchemaKind
deriving DecidableEq

/-- One entry of `SETTINGS_SCHEMA`: display label plus kind. -/
structure SchemaEntry where
  label : String
  kind : SchemaKind
deriving DecidableEq

/-- The `SETTINGS_SCHEMA` table of src/main.py lines 20-55, in declaration
order. -/
def SETTINGS_SCHEMA : List (String × SchemaEntry) := [
  ("setting.max_fps", ⟨"FPS Limit", .intKind 0 999 none⟩),
  ("setting.defaultres", ⟨"Resolution Width", .intKind 320 7680 (some 1)⟩),
  ("setting.defaultresheight", ⟨"Resolution Height", .intKind 200 4320 (some 1)⟩),
  ("setting.refreshrate_numerator", ⟨"Refresh Rate (Hz)", .intKind 30 1000 none⟩),
  ("setting.refreshrate_denominator", ⟨"Refresh Denominator", .intKind 1 4 none⟩),
  ("setting.fullscreen", ⟨"Fullscreen", .boolKind⟩),
  ("setting.mat_vsync", ⟨"V-Sync", .boolKind⟩),
  ("setting.monitor_index", ⟨"Monitor Index", .intKind 0 7 none⟩),
  ("setting.cpu_level", ⟨"CPU Detail Level", .enumKind ["0:Low", "1:Medium", "2:High", "3:Ultra"]⟩),
  ("setting.gpu_mem_level", ⟨"GPU Memory Level", .enumKind ["0:Low", "1:Medium", "2:High", "3:Ultra"]⟩),
  ("setting.gpu_level", ⟨"GPU Detail Level", .enumKind ["0:Low", "1:Medium", "2:High", "3:Ultra"]⟩),
  ("setting.knowndevice", ⟨"Known Device (Auto)", .boolKind⟩),
  ("setting.nowindowborder", ⟨"No Window Border", .boolKind⟩),
  ("setting.fullscreen_min_on_focus_loss", ⟨"Minimize On Focus Loss", .boolKind⟩),
  ("setting.high_dpi", ⟨"High DPI", .boolKind⟩),
  ("setting.coop_fullscreen", ⟨"Coop Fullscreen", .boolKind⟩),
  ("setting.shaderquality", ⟨"Shader Quality", .enumKind ["0:Low", "1:Med", "2:High", "3:Ultra"]⟩),
  ("setting.r_texturefilteringquality", ⟨"Texture Filtering", .enumKind ["0:Bilinear", "1:Trilinear", "2:Aniso 4x", "3:Aniso 8x", "4:Aniso 16x"]⟩),
  ("setting.msaa_samples", ⟨"MSAA Samples", .enumKind ["0:Off", "2:2x", "4:4x", "8:8x"]⟩),
  ("setting.r_csgo_cmaa_enable", ⟨"CMAA Anti-Aliasing", .boolKind⟩),
  ("setting.videocfg_shadow_quality", ⟨"Shadow Quality", .enumKind ["0:Low", "1:Med", "2:High", "3:Very High"]⟩),
  ("setting.videocfg_dynamic_shadows", ⟨"Dynamic Shadows", .enumKind ["0:Off", "1:Some", "2:All"]⟩),
  ("setting.videocfg_texture_detail", ⟨"Texture Detail", .enumKind ["0:Low", "1:Med", "2:High", "3:Ultra"]⟩),
  ("setting.videocfg_particle_detail", ⟨"Particle Detail", .enumKind ["0:Low", "1:Med", "2:High", "3:Ultra"]⟩),
  ("setting.videocfg_ao_detail", ⟨"Ambient Occlusion", .enumKind ["0:Disabled", "1:Low", "2:High"]⟩),
  ("setting.videocfg_hdr_detail", ⟨"HDR Detail", .enumKind ["-1:Quality", "0:Performance", "1:Balanced", "2:Quality"]⟩),
  ("setting.videocfg_fsr_detail", ⟨"FSR Detail", .enumKind ["0:Off", "1:Performance", "2:Balanced", "3:Quality", "4:Ultra Quality"]⟩),
  ("setting.r_low_latency", ⟨"Low Latency (Reflex)", .enumKind ["0:Disabled", "1:Enabled", "2:Enabled + Boost"]⟩),
  ("setting.aspectratiomode", ⟨"Aspect Ratio Mode", .enumKind ["0:Auto", "1:4:3 Str", "2:16:9", "3:16:10"]⟩),
  ("Version", ⟨"Version", .metaKind⟩),
  ("VendorID", ⟨"GPU VendorID", .metaKind⟩),
  ("DeviceID", ⟨"GPU DeviceID", .metaKind⟩),
  ("Autoconfig", ⟨"Auto Config", .metaKind⟩)]

/-- Python `SETTINGS_SCHEMA.get(key)`. -/
def lookupSchema (key : String) : Option SchemaEntry :=
  (SETTINGS_SCHEMA.find? (fun e => e.1 == key)).map (fun e => e.2)

/-- Keys of the widget registry `self.widgets`, which `init_ui` fills with
one widget per schema key (the `setting.max_fps` composite is re-assigned
to the same key, which keeps its dict position). -/
def widgetKeys : List String := SETTINGS_SCHEMA.map (fun e => e.1)

/-- Python `str.strip()` on a character list. -/
def pyStrip (l : List Char) : List Char :=
  ((l.dropWhile isPySpace).reverse.dropWhile isPySpace).reverse

/-- Digit run of a Python integer literal after the optional sign:
digits with single underscores allowed strictly between digits
(continuation after the first character). -/
def restDigits : List Char → Bool
  | [] => true
  | '_' :: rest =>
    match rest with
    | [] => false
    | c :: rest2 => c.isDigit && restDigits rest2
  | c :: rest => c.isDigit && restDigits rest

/-- A valid unsigned digit run for Python `int(str)`: non-empty, first
character a digit, underscores only between digits. -/
def okDigits : List Char → Bool
  | [] => false
  | c :: rest => c.isDigit && restDigits rest

/-- Numeric value of a list of decimal digit characters. -/
def digitsVal (l : List Char) : Nat :=
  l.foldl (fun a c => 10 * a + (c.toNat - 48)) 0

/-- Python `int(s)` on a decimal string: strip whitespace, optional sign,
digits with optional single underscores; `none` models the `ValueError`
on any other shape (ASCII digits only in this model). -/
def pyInt? (s : String) : Option Int :=
  match pyStrip s.data with
  | '+' :: rest =>
    if okDigits rest then some (Int.ofNat (digitsVal (rest.filter (fun c => c != '_')))) else none
  | '-' :: rest =>
    if okDigits rest then some (-(Int.ofNat (digitsVal (rest.filter (fun c => c != '_'))))) else none
  | l =>
    if okDigits l then some (Int.ofNat (digitsVal (l.filter (fun c => c != '_')))) else none

/-- `QSpinBox.setValue` / `QSlider.setValue` clamp their argument into the
widget's range `[lo, hi]`. -/
def qtSpinSet (lo hi v : Int) : Int := max lo (min hi v)

/-- Boolean decode of `populate_widgets` (line 411): the checkbox is
checked exactly when the raw value is the string `"1"`; an absent key
(`None`) compares unequal and decodes to false. -/
def decodeBool (val : Option String) : Bool :=
  match val with
  | some s => s == "1"
  | none => false

/-- Boolean encode of `collect_widget_values` (line 449): `"1"` for a
checked box, `"0"` otherwise. -/
def encodeBool (b : Bool) : String := if b then "1" else "0"

/-- Integer decode of `populate_widgets`, generic spinbox branch (lines
422-428): parse the raw string, fall back to the schema `min` on absence
or parse failure, clamp into `[min, max]`, then `setValue` (whose widget
range is `[min, max]` from `init_ui`) clamps again. -/
def decodeInt (mn mx : Int) (val : Option String) : Int :=
  match val with
  | none => qtSpinSet mn mx (max mn (min mx mn))
  | some s =>
    match pyInt? s with
    | none => qtSpinSet mn mx mn
    | some n => qtSpinSet mn mx (max mn (min mx n))

/-- Integer decode of `populate_widgets`, `fps_limit` composite branch
(lines 413-421): no explicit clamp in the Python code; the contained
spinbox and slider have range `[0, 999]` from `init_ui`, so `setValue`
clamps into that range. -/
def decodeIntFps (mn : Int) (val : Option String) : Int :=
  match val with
  | none => qtSpinSet 0 999 mn
  | some s =>
    match pyInt? s with
    | none => qtSpinSet 0 999 mn
    | some n => qtSpinSet 0 999 n

/-- Option parsing of `init_ui` (lines 248-253): split an option string
on the first colon into raw value and display label (an option without a
colon is its own label), stripping both; the combo item stores
`(data, text)` as `(value.strip(), label.strip())`. -/
def splitOpt (opt : String) : String × String :=
  if opt.data.contains ':' then
    (String.mk (pyStrip (opt.data.takeWhile (fun c => c != ':'))),
     String.mk (pyStrip ((opt.data.dropWhile (fun c => c != ':')).tail)))
  else (String.mk (pyStrip opt.data), String.mk (pyStrip opt.data))

/-- The combo box items built by `init_ui` for an enum key:
one `(data, text)` item per declared option, in declared order. -/
def comboItems (options : List String) : List (String × String) :=
  options.map splitOpt

/-- The index scan of `populate_widgets`' enum branch (lines 431-438):
first item whose data equals the raw value, counting from `base`. -/
def enumFind : List (String × String) → String → Nat → Option Nat
  | [], _, _ => none
  | it :: rest, v, i => if it.1 = v then some i else enumFind rest v (i + 1)

/-- Enum decode of `populate_widgets` (lines 429-440): linear scan for the
first combo item whose data string equals the raw value; if the key is
absent or nothing matches, index 0 (the first declared option). -/
def enumSelect (options : List String) (val : Option String) : Nat :=
  match val with
  | none => 0
  | some v =>
    match enumFind (comboItems options) v 0 with
    | some i => i
    | none => 0

/-- Metadata display of `populate_widgets` (line 442): the raw value, or
`"-"` when the key is absent. -/
def metaLabelText (val : Option String) : String :=
  match val with
  | some s => s
  | none => "-"

/-- Fuel-indexed digit emitter for Python `str` of a non-negative integer;
fuel `n` suffices since the digit count of `n ≥ 1` is at most `n`. -/
def pyStrNatAux : Nat → Nat → List Char → List Char
  | 0, _, acc => acc
  | fuel + 1, n, acc =>
    if n = 0 then acc
    else pyStrNatAux fuel (n / 10) (Char.ofNat (48 + n % 10) :: acc)

/-- Python `str(n)` for a non-negative integer: decimal digits. -/
def pyStrNat (n : Nat) : String :=
  if n = 0 then "0" else String.mk (pyStrNatAux n n [])

/-- Python `str(i)` for an integer: optional minus sign plus decimal
digits (used by `collect_widget_values` as `str(widget.value())`). -/
def pyStr (i : Int) : String :=
  if i < 0 then "-" ++ pyStrNat (-i).toNat else pyStrNat i.toNat

/-- Python `str(widget.currentData())` for a combo box showing `options`:
the data string of item `i`; Qt yields `None` (hence the string `"None"`)
for an out-of-range index, which cannot occur for a populated combo. -/
def currentDataStr (options : List String) (i : Nat) : String :=
  match (comboItems options).get? i with
  | some it => it.1
  | none => "None"

/-- Abstract state of the editor's widgets: checkbox checked flags,
spinbox values and combo current indices, one per key. -/
structure UIState where
  checks : String → Bool
  ints : String → Int
  enums : String → Nat

/-- The loop body of `populate_widgets` (lines 405-442) for one key of the
widget registry: the widget update the code performs, dispatched on the
schema `"type"` tag; `none` when the key has no schema entry (`t` is
`None` and no branch runs).  The `setting.max_fps` key holds the
`fps_limit` composite widget, which takes the branch without the explicit
clamp. -/
def populateOne (settings : Store) (key : String) : Option (String ⊕ Int ⊕ Nat ⊕ Bool) :=
  match lookupSchema key with
  | none => none
  | some entry =>
    match entry.kind with
    | .boolKind => some (.inr (.inr (.inr (decodeBool (lookupStore settings key)))))
    | .intKind mn mx _ =>
      if key = "setting.max_fps" then
        some (.inr (.inl (decodeIntFps mn (lookupStore settings key))))
      else some (.inr (.inl (decodeInt mn mx (lookupStore settings key))))
    | .enumKind opts => some (.inr (.inr (.inl (enumSelect opts (lookupStore settings key)))))
    | .metaKind => some (.inl (metaLabelText (lookupStore settings key)))

/-- The loop body of `collect_widget_values` (lines 445-462) for one key:
write the widget's current value back into the settings dict, dispatched
on the schema `"type"` tag; keys without a schema entry and `"meta"` keys
leave the dict untouched. -/
def collectOne (ui : UIState) (st : Store) (key : String) : Store :=
  match lookupSchema key with
  | none => st
  | some entry =>
    match entry.kind with
    | .boolKind => insertOrUpdate st key (encodeBool (ui.checks key))
    | .intKind _ _ _ => insertOrUpdate st key (pyStr (ui.ints key))
    | .enumKind opts => insertOrUpdate st key (currentDataStr opts (ui.enums key))
    | .metaKind => st

/-- `collect_widget_values` (src/main.py lines 444-462): fold the loop
body over the widget registry keys (the schema keys, in schema order). -/
def collect_widget_values (ui : UIState) (st : Store) : Store :=
  widgetKeys.foldl (fun acc key => collectOne ui acc key) st

/-- A concrete widget state used for closed instances: everything
unchecked, zero and at index zero. -/
def uiZero : UIState := ⟨fun _ => false, fun _ => 0, fun _ => 0⟩

/-- Value of the last occurrence of `k` in a pair sequence, following the
spec's duplicate-key wording (the last occurrence's value wins). -/
def specLastValue : List (String × String) → String → Option String
  | [], _ => none
  | (k', v') :: rest, k =>
    match specLastValue rest k with
    | some v => some v
    | none => if k' = k then some v' else none

/-- First-occurrence deduplication with an explicit seen set, following
the spec's wording that the first occurrence's position determines order. -/
def firstDedupAux : List String → List String → List String
  | [], _ => []
  | k :: rest, seen =>
    if k ∈ seen then firstDedupAux rest seen else k :: firstDedupAux rest (k :: seen)

/-- Keys of a pair sequence in order of first occurrence. -/
def specFirstKeys (ks : List String) : List String := firstDedupAux ks []

/-- A key or value string as the parser can produce it: non-empty, no
double quote, no line-boundary character. -/
def validTok (s : String) : Bool :=
  !s.data.isEmpty && s.data.all (fun c => c != '"' && !pyLineBreak c)

/-- Well-formedness of a store: unique keys, and every key and value a
valid token.  Every store built by `parse_config` satisfies this. -/
def StoreOk (st : Store) : Prop :=
  (st.map Prod.fst).Nodup ∧ ∀ kv ∈ st, validTok kv.1 = true ∧ validTok kv.2 = true

instance (st : Store) : Decidable (StoreOk st) := by
  unfold StoreOk; infer_instance

/-! ### Ordered-dict lemmas -/

theorem insertOrUpdate_lookup_self (st : Store) (k v : String) :
    lookupStore (insertOrUpdate st k v) k = some v := by
  induction st with
  | nil => simp [insertOrUpdate, lookupStore]
  | cons kv rest ih =>
    obtain ⟨k', v'⟩ := kv
    by_cases h : k' = k
    · simp [insertOrUpdate, lookupStore, h]
    · simp [insertOrUpdate, lookupStore, h, ih]

theorem insertOrUpdate_lookup_other (st : Store) (k v q : String) (h : k ≠ q) :
    lookupStore (insertOrUpdate st k v) q = lookupStore st q := by
  induction st with
  | nil => simp [insertOrUpdate, lookupStore, h]
  | cons kv rest ih =>
    obtain ⟨k', v'⟩ := kv
    by_cases h' : k' = k
    · subst h'
      simp [insertOrUpdate, lookupStore, h]
    · simp [insertOrUpdate, lookupStore, h', ih]

theorem insertOrUpdate_keys_mem (st : Store) (k v : String)
    (h : k ∈ st.map Prod.fst) :
    (insertOrUpdate st k v).map Prod.fst = st.map Prod.fst := by
  induction st with
  | nil => simp at h
  | cons kv rest ih =>
    obtain ⟨k', v'⟩ := kv
    by_cases h' : k' = k
    · simp [insertOrUpdate, h']
    · simp only [List.map_cons, List.mem_cons] at h
      rcases h with h | h
      · exact absurd h.symm h'
      · simp [insertOrUpdate, h', ih h]

theorem insertOrUpdate_not_mem (st : Store) (k v : String)
    (h : k ∉ st.map Prod.fst) :
    insertOrUpdate st k v = st ++ [(k, v)] := by
  induction st with
  | nil => simp [insertOrUpdate]
  | cons kv rest ih =>
    obtain ⟨k', v'⟩ := kv
    simp only [List.map_cons, List.mem_cons] at h
    push_neg at h
    simp [insertOrUpdate, Ne.symm h.1, ih h.2]

theorem mem_insertOrUpdate (st : Store) (k v : String) (kv : String × String)
    (h : kv ∈ insertOrUpdate st k v) : kv ∈ st ∨ kv = (k, v) := by
  induction st with
  | nil =>
    simp only [insertOrUpdate, List.mem_singleton] at h
    exact Or.inr h
  | cons kv' rest ih =>
    obtain ⟨k', v'⟩ := kv'
    simp only [insertOrUpdate] at h
    by_cases h' : k' = k
    · rw [if_pos h'] at h
      rcases List.mem_cons.mp h with h1 | h1
      · exact Or.inr (by rw [h1, h'])
      · exact Or.inl (List.mem_cons_of_mem _ h1)
    · rw [if_neg h'] at h
      rcases List.mem_cons.mp h with h1 | h1
      · exact Or.inl (by rw [h1]; exact List.mem_cons_self _ _)
      · rcases ih h1 with h2 | h2
        · exact Or.inl (List.mem_cons_of_mem _ h2)
        · exact Or.inr h2

theorem insertOrUpdate_storeOk (st : Store) (k v : String) (h : StoreOk st)
    (hk : validTok k = true) (hv : validTok v = true) :
    StoreOk (insertOrUpdate st k v) := by
  obtain ⟨hnd, hval⟩ := h
  constructor
  · by_cases hm : k ∈ st.map Prod.fst
    · rw [insertOrUpdate_keys_mem st k v hm]; exact hnd
    · rw [insertOrUpdate_not_mem st k v hm]
      rw [List.map_append, List.nodup_append]
      refine ⟨hnd, by simp, ?_⟩
      intro a ha hb
      simp only [List.map_cons, List.map_nil, List.mem_singleton] at hb
      exact hm (hb ▸ ha)
  · intro kv hkv
    rcases mem_insertOrUpdate st k v kv hkv with h | h
    · exact hval kv h
    · subst h; exact ⟨hk, hv⟩

theorem foldl_insert_lookup (ps : List (String × String)) (st : Store) (k : String) :
    lookupStore (ps.foldl (fun c kv => insertOrUpdate c kv.1 kv.2) st) k =
      match specLastValue ps k with
      | some v => some v
      | none => lookupStore st k := by
  induction ps generalizing st with
  | nil => simp [specLastValue]
  | cons kv rest ih =>
    obtain ⟨k', v'⟩ := kv
    simp only [List.foldl_cons, specLastValue]
    rw [ih]
    cases h : specLastValue rest k with
    | some v => simp
    | none =>
      by_cases h' : k' = k
      · subst h'
        simp [insertOrUpdate_lookup_self]
      · simp [h', insertOrUpdate_lookup_other st k' v' k h']

theorem firstDedupAux_congr (ks : List String) (s t : List String)
    (h : ∀ x, x ∈ s ↔ x ∈ t) : firstDedupAux ks s = firstDedupAux ks t := by
  induction ks generalizing s t with
  | nil => simp [firstDedupAux]
  | cons k rest ih =>
    by_cases hk : k ∈ s
    · simp [firstDedupAux, hk, (h k).mp hk, ih s t h]
    · have hk' : k ∉ t := fun hc => hk ((h k).mpr hc)
      simp only [firstDedupAux, if_neg hk, if_neg hk']
      rw [ih (k :: s) (k :: t) (fun x => by simp [h x])]

theorem foldl_insert_keys (ps : List (String × String)) (st : Store) :
    (ps.foldl (fun c kv => insertOrUpdate c kv.1 kv.2) st).map Prod.fst =
      st.map Prod.fst ++ firstDedupAux (ps.map Prod.fst) (st.map Prod.fst) := by
  induction ps generalizing st with
  | nil => simp [firstDedupAux]
  | cons kv rest ih =>
    obtain ⟨k, v⟩ := kv
    simp only [List.foldl_cons, List.map_cons]
    rw [ih]
    by_cases hm : k ∈ st.map Prod.fst
    · rw [insertOrUpdate_keys_mem st k v hm]
      simp [firstDedupAux, hm]
    · rw [insertOrUpdate_not_mem st k v hm]
      simp only [firstDedupAux, if_neg hm, List.map_append, List.map_cons,
        List.map_nil]
      rw [firstDedupAux_congr (rest.map Prod.fst)
        (st.map Prod.fst ++ [k]) (k :: st.map Prod.fst) (fun x => by simp [or_comm])]
      simp

theorem foldl_insert_of_fresh (ps : List (String × String)) (st : Store)
    (hdisj : ∀ k ∈ ps.map Prod.fst, k ∉ st.map Prod.fst)
    (hnd : (ps.map Prod.fst).Nodup) :
    ps.foldl (fun c kv => insertOrUpdate c kv.1 kv.2) st = st ++ ps := by
  induction ps generalizing st with
  | nil => simp
  | cons kv rest ih =>
    obtain ⟨k, v⟩ := kv
    simp only [List.foldl_cons]
    rw [insertOrUpdate_not_mem st k v (hdisj k (by simp))]
    simp only [List.map_cons, List.nodup_cons] at hnd
    rw [ih (st ++ [(k, v)])]
    · simp
    · intro q hq
      simp only [List.map_append, List.mem_append, List.map_cons, List.map_nil,
        List.mem_singleton]
      push_neg
      constructor
      · exact hdisj q (by simp [hq])
      · intro hc
        exact hnd.1 (hc ▸ hq)
    · exact hnd.2

theorem parse_config_eq_foldl (raw : String) :
    parse_config raw =
      (extractPairs raw).foldl (fun c kv => insertOrUpdate c kv.1 kv.2) [] := by
  unfold parse_config extractPairs
  generalize splitlines raw = lines
  suffices h : ∀ st : Store,
      lines.foldl
        (fun config line =>
          (findPairs line.data).foldl (fun c kv => insertOrUpdate c kv.1 kv.2) config) st =
      ((lines.map fun line => findPairs line.data).flatten).foldl
        (fun c kv => insertOrUpdate c kv.1 kv.2) st from h []
  intro st
  induction lines generalizing st with
  | nil => simp
  | cons l rest ih =>
    simp only [List.foldl_cons, List.map_cons, List.flatten_cons, List.foldl_append]
    exact ih _

/-! ### Matcher lemmas -/

theorem quoteTok_length (l t r : List Char) (h : quoteTok l = some (t, r)) :
    r.length < l.length := by
  match l with
  | [] => simp [quoteTok] at h
  | c :: rest =>
    simp only [quoteTok] at h
    split_ifs at h with h1 h2 h3
    · simp only [Option.some.injEq, Prod.mk.injEq] at h
      obtain ⟨-, hr⟩ := h
      have hdw : (rest.dropWhile (fun x => x != '"')).length ≤ rest.length :=
        (List.dropWhile_sublist _).length_le
      have hne : rest.dropWhile (fun x => x != '"') ≠ [] := by
        intro hc
        rw [hc] at h3
        simp at h3
      have hpos : 0 < (rest.dropWhile (fun x => x != '"')).length :=
        List.length_pos.mpr hne
      have := List.length_tail (rest.dropWhile (fun x => x != '"'))
      rw [← hr] at *
      simp only [List.length_cons]
      omega

theorem wsRun_length (l r : List Char) (h : wsRun l = some r) :
    r.length ≤ l.length := by
  simp only [wsRun] at h
  split_ifs at h
  simp only [Option.some.injEq] at h
  rw [← h]
  exact (List.dropWhile_sublist _).length_le

theorem matchPair_inv (l : List Char) (k v : String) (rest : List Char)
    (h : matchPair l = some (k, v, rest)) :
    ∃ k0 r1 r2 v0, quoteTok l = some (k0, r1) ∧ wsRun r1 = some r2 ∧
      quoteTok r2 = some (v0, rest) ∧ k = String.mk k0 ∧ v = String.mk v0 := by
  simp only [matchPair, Option.bind_eq_some, Option.map_eq_some'] at h
  obtain ⟨⟨k0, r1⟩, hq, r2, hw, ⟨v0, r3⟩, hq2, heq⟩ := h
  simp only [Prod.mk.injEq] at heq
  obtain ⟨hk, hv, hr⟩ := heq
  exact ⟨k0, r1, r2, v0, hq, hw, by rw [hr] at hq2; exact hq2, hk.symm, hv.symm⟩

theorem matchPair_length (l : List Char) (k v : String) (rest : List Char)
    (h : matchPair l = some (k, v, rest)) : rest.length < l.length := by
  obtain ⟨k0, r1, r2, v0, hq, hw, hq2, -, -⟩ := matchPair_inv l k v rest h
  have l1 := quoteTok_length l k0 r1 hq
  have l2 := wsRun_length r1 r2 hw
  have l3 := quoteTok_length r2 v0 rest hq2
  omega

theorem findPairsAux_fuel (fuel1 fuel2 : Nat) (l : List Char)
    (h1 : l.length ≤ fuel1) (h2 : l.length ≤ fuel2) :
    findPairsAux fuel1 l = findPairsAux fuel2 l := by
  induction fuel1 generalizing fuel2 l with
  | zero =>
    have hl : l = [] := List.length_eq_zero.mp (Nat.le_zero.mp h1)
    subst hl
    cases fuel2 <;> rfl
  | succ f ih =>
    cases l with
    | nil => cases fuel2 <;> rfl
    | cons c cs =>
      cases fuel2 with
      | zero => simp at h2
      | succ f2 =>
        simp only [findPairsAux]
        cases hm : matchPair (c :: cs) with
        | none =>
          simp only [List.length_cons] at h1 h2
          exact ih f2 cs (by omega) (by omega)
        | some p =>
          obtain ⟨k, v, rest⟩ := p
          have hlen := matchPair_length _ _ _ _ hm
          simp only [List.length_cons] at h1 h2 hlen
          show (k, v) :: findPairsAux f rest = (k, v) :: findPairsAux f2 rest
          rw [ih f2 rest (by omega) (by omega)]

theorem findPairs_cons_some (c : Char) (cs : List Char) (k v : String)
    (rest : List Char) (h : matchPair (c :: cs) = some (k, v, rest)) :
    findPairs (c :: cs) = (k, v) :: findPairs rest := by
  have hlen := matchPair_length _ _ _ _ h
  simp only [List.length_cons] at hlen
  unfold findPairs
  simp only [List.length_cons, findPairsAux, h]
  rw [findPairsAux_fuel cs.length rest.length rest (by omega) (by omega)]

theorem findPairs_cons_none (c : Char) (cs : List Char)
    (h : matchPair (c :: cs) = none) : findPairs (c :: cs) = findPairs cs := by
  unfold findPairs
  simp only [List.length_cons, findPairsAux, h]

theorem quoteTok_spec (l t r : List Char) (h : quoteTok l = some (t, r)) :
    t ≠ [] ∧ (∀ c ∈ t, c ≠ '"') ∧ (∀ c ∈ t, c ∈ l) ∧ ∀ c ∈ r, c ∈ l := by
  match l with
  | [] => simp [quoteTok] at h
  | c :: rest =>
    simp only [quoteTok] at h
    split_ifs at h with h1 h2 h3
    simp only [Option.some.injEq, Prod.mk.injEq] at h
    obtain ⟨ht, hr⟩ := h
    refine ⟨?_, ?_, ?_, ?_⟩
    · rw [← ht]
      intro hc
      rw [hc] at h2
      simp at h2
    · intro x hx
      rw [← ht] at hx
      have := List.mem_takeWhile_imp hx
      simpa using this
    · intro x hx
      rw [← ht] at hx
      exact List.mem_cons_of_mem _ ((List.takeWhile_sublist _).mem hx)
    · intro x hx
      rw [← hr] at hx
      have hx2 : x ∈ rest.dropWhile (fun x => x != '"') :=
        (List.tail_sublist _).mem hx
      exact List.mem_cons_of_mem _ ((List.dropWhile_sublist _).mem hx2)

theorem wsRun_sub (l r : List Char) (h : wsRun l = some r) : ∀ c ∈ r, c ∈ l := by
  simp only [wsRun] at h
  split_ifs at h
  simp only [Option.some.injEq] at h
  intro c hc
  rw [← h] at hc
  exact (List.dropWhile_sublist _).mem hc

theorem matchPair_tokens (l : List Char) (k v : String) (rest : List Char)
    (h : matchPair l = some (k, v, rest)) :
    (k.data ≠ [] ∧ ∀ c ∈ k.data, c ≠ '"' ∧ c ∈ l) ∧
    (v.data ≠ [] ∧ ∀ c ∈ v.data, c ≠ '"' ∧ c ∈ l) := by
  obtain ⟨k0, r1, r2, v0, hq, hw, hq2, hk, hv⟩ := matchPair_inv l k v rest h
  obtain ⟨hk1, hk2, hk3, hk4⟩ := quoteTok_spec l k0 r1 hq
  obtain ⟨hv1, hv2, hv3, hv4⟩ := quoteTok_spec r2 v0 rest hq2
  have hsub : ∀ c ∈ v0, c ∈ l := fun c hc =>
    hk4 c (wsRun_sub r1 r2 hw c (hv3 c hc))
  subst hk
  subst hv
  exact ⟨⟨hk1, fun c hc => ⟨hk2 c hc, hk3 c hc⟩⟩,
    ⟨hv1, fun c hc => ⟨hv2 c hc, hsub c hc⟩⟩⟩

theorem matchPair_rest_sub (l : List Char) (k v : String) (rest : List Char)
    (h : matchPair l = some (k, v, rest)) : ∀ c ∈ rest, c ∈ l := by
  obtain ⟨k0, r1, r2, v0, hq, hw, hq2, -, -⟩ := matchPair_inv l k v rest h
  intro c hc
  exact (quoteTok_spec l k0 r1 hq).2.2.2 c
    (wsRun_sub r1 r2 hw c ((quoteTok_spec r2 v0 rest hq2).2.2.2 c hc))

theorem findPairs_valid : ∀ (n : Nat) (l : List Char), l.length ≤ n →
    (∀ c ∈ l, pyLineBreak c = false) →
    ∀ kv ∈ findPairs l, validTok kv.1 = true ∧ validTok kv.2 = true := by
  intro n
  induction n with
  | zero =>
    intro l hl _
    have : l = [] := List.length_eq_zero.mp (Nat.le_zero.mp hl)
    subst this
    intro kv hkv
    simp [findPairs, findPairsAux] at hkv
  | succ n ih =>
    intro l hl hnb kv hkv
    cases l with
    | nil => simp [findPairs, findPairsAux] at hkv
    | cons c cs =>
      cases hm : matchPair (c :: cs) with
      | none =>
        rw [findPairs_cons_none c cs hm] at hkv
        simp only [List.length_cons] at hl
        exact ih cs (by omega) (fun x hx => hnb x (List.mem_cons_of_mem _ hx)) kv hkv
      | some p =>
        obtain ⟨k, v, rest⟩ := p
        rw [findPairs_cons_some c cs k v rest hm] at hkv
        rcases List.mem_cons.mp hkv with h | h
        · subst h
          obtain ⟨⟨hk1, hk2⟩, hv1, hv2⟩ := matchPair_tokens _ _ _ _ hm
          constructor
          · simp only [validTok, Bool.and_eq_true, Bool.not_eq_true',
              List.isEmpty_eq_false, List.all_eq_true]
            refine ⟨by simpa using hk1, ?_⟩
            intro x hx
            obtain ⟨hq, hmem⟩ := hk2 x hx
            simp [hq, hnb x hmem]
          · simp only [validTok, Bool.and_eq_true, Bool.not_eq_true',
              List.isEmpty_eq_false, List.all_eq_true]
            refine ⟨by simpa using hv1, ?_⟩
            intro x hx
            obtain ⟨hq, hmem⟩ := hv2 x hx
            simp [hq, hnb x hmem]
        · have hlen := matchPair_length _ _ _ _ hm
          simp only [List.length_cons] at hl hlen
          have hsub : ∀ x ∈ rest, pyLineBreak x = false := fun x hx =>
            hnb x (matchPair_rest_sub _ _ _ _ hm x hx)
          exact ih rest (by omega) hsub kv h

/-! ### splitlines lemmas -/

theorem String_mk_data (s : String) : String.mk s.data = s := rfl

theorem String_data_ne_nil (s : String) (h : s ≠ "") : s.data ≠ [] := by
  intro hc
  exact h (by rw [← String_mk_data s, hc])

theorem splitlinesAux_nonbreak (c : Char) (rest acc : List Char)
    (hc : pyLineBreak c = false) :
    splitlinesAux (c :: rest) acc = splitlinesAux rest (c :: acc) := by
  cases rest with
  | nil => simp [splitlinesAux, hc]
  | cons d rest2 => simp [splitlinesAux, hc]

theorem splitlinesAux_no_break : ∀ (l acc : List Char),
    (∀ c ∈ acc, pyLineBreak c = false) →
    ∀ line ∈ splitlinesAux l acc, ∀ c ∈ line.data, pyLineBreak c = false := by
  intro l acc
  induction l, acc using splitlinesAux.induct with
  | case1 acc hempty =>
    intro _ line hline
    simp [splitlinesAux, hempty] at hline
  | case2 acc hempty =>
    intro hacc line hline
    simp only [splitlinesAux, if_neg hempty, List.mem_singleton] at hline
    subst hline
    intro c hc
    simp only [String_mk_data] at hc
    exact hacc c (List.mem_reverse.mp hc)
  | case3 c acc hb d rest2 hrn ih =>
    intro hacc line hline
    simp only [splitlinesAux, if_pos hb, if_pos hrn, List.mem_cons] at hline
    rcases hline with h | h
    · subst h
      intro x hx
      exact hacc x (List.mem_reverse.mp hx)
    · exact ih (by simp) line h
  | case4 c acc hb d rest2 hrn ih =>
    intro hacc line hline
    simp only [splitlinesAux, if_pos hb, if_neg hrn, List.mem_cons] at hline
    rcases hline with h | h
    · subst h
      intro x hx
      exact hacc x (List.mem_reverse.mp hx)
    · exact ih (by simp) line h
  | case5 c acc hb =>
    intro hacc line hline
    simp only [splitlinesAux, if_pos hb, List.mem_singleton] at hline
    subst hline
    intro x hx
    exact hacc x (List.mem_reverse.mp hx)
  | case6 c rest acc hb ih =>
    intro hacc line hline
    rw [splitlinesAux_nonbreak c rest acc (by simpa using hb)] at hline
    refine ih ?_ line hline
    intro x hx
    rcases List.mem_cons.mp hx with h | h
    · subst h
      simpa using hb
    · exact hacc x h

theorem splitlines_no_break (s : String) :
    ∀ line ∈ splitlines s, ∀ c ∈ line.data, pyLineBreak c = false :=
  splitlinesAux_no_break s.data [] (by simp)

theorem splitlinesAux_append (cs : List Char) :
    ∀ (tail acc : List Char), (∀ c ∈ cs, pyLineBreak c = false) →
    splitlinesAux (cs ++ tail) acc = splitlinesAux tail (cs.reverse ++ acc) := by
  induction cs with
  | nil => intro tail acc _; simp
  | cons c cs' ih =>
    intro tail acc h
    have hc : pyLineBreak c = false := h c (by simp)
    rw [List.cons_append, splitlinesAux_nonbreak c (cs' ++ tail) acc hc]
    rw [ih tail (c :: acc) (fun x hx => h x (List.mem_cons_of_mem _ hx))]
    simp

theorem splitlinesAux_newline (tail acc : List Char) :
    splitlinesAux ('\n' :: tail) acc =
      String.mk acc.reverse :: splitlinesAux tail [] := by
  cases tail with
  | nil => rfl
  | cons d tail2 =>
    simp only [splitlinesAux]
    rw [if_pos (by decide), if_neg (fun hc => absurd hc.1 (by decide))]

theorem joinLines_cons₂ (l l2 : String) (ls : List String) :
    joinLines (l :: l2 :: ls) = l ++ "\n" ++ joinLines (l2 :: ls) := rfl

theorem splitlines_joinLines : ∀ (lines : List String), lines ≠ [] →
    (∀ l ∈ lines, l ≠ "" ∧ ∀ c ∈ l.data, pyLineBreak c = false) →
    splitlines (joinLines lines) = lines := by
  intro lines
  induction lines with
  | nil => intro h; exact absurd rfl h
  | cons l rest ih =>
    intro _ hval
    obtain ⟨hne, hnb⟩ := hval l (by simp)
    cases rest with
    | nil =>
      show splitlines (joinLines [l]) = [l]
      have hjl : joinLines [l] = l := rfl
      have hd : l.data ≠ [] := String_data_ne_nil l hne
      rw [hjl]
      unfold splitlines
      rw [← List.append_nil l.data, splitlinesAux_append l.data [] [] hnb]
      simp only [List.append_nil, splitlinesAux]
      rw [if_neg (by simp [List.isEmpty_iff, hd])]
      simp [String_mk_data]
    | cons l2 rest2 =>
      rw [joinLines_cons₂]
      unfold splitlines
      have hdata : (l ++ "\n" ++ joinLines (l2 :: rest2)).data =
          l.data ++ '\n' :: (joinLines (l2 :: rest2)).data := by
        simp [String.data_append]
      rw [hdata, splitlinesAux_append l.data _ [] hnb, splitlinesAux_newline]
      simp only [List.append_nil, List.reverse_reverse, String_mk_data]
      congr 1
      exact ih (by simp) (fun x hx => hval x (List.mem_cons_of_mem _ hx))

/-! ### The parse invariant -/

theorem storeOk_nil : StoreOk [] := ⟨List.nodup_nil, by simp⟩

theorem foldl_insert_storeOk (ps : List (String × String)) (st : Store)
    (h : StoreOk st)
    (hps : ∀ kv ∈ ps, validTok kv.1 = true ∧ validTok kv.2 = true) :
    StoreOk (ps.foldl (fun c kv => insertOrUpdate c kv.1 kv.2) st) := by
  induction ps generalizing st with
  | nil => exact h
  | cons kv rest ih =>
    simp only [List.foldl_cons]
    exact ih _
      (insertOrUpdate_storeOk st kv.1 kv.2 h (hps kv (by simp)).1 (hps kv (by simp)).2)
      (fun kv' h' => hps kv' (List.mem_cons_of_mem _ h'))

theorem extractPairs_valid (raw : String) :
    ∀ kv ∈ extractPairs raw, validTok kv.1 = true ∧ validTok kv.2 = true := by
  intro kv hkv
  simp only [extractPairs, List.mem_flatten, List.mem_map] at hkv
  obtain ⟨pairs, ⟨line, hline, rfl⟩, hkv⟩ := hkv
  exact findPairs_valid line.data.length line.data le_rfl
    (splitlines_no_break raw line hline) kv hkv

theorem parse_config_storeOk (raw : String) : StoreOk (parse_config raw) := by
  rw [parse_config_eq_foldl]
  exact foldl_insert_storeOk (extractPairs raw) [] storeOk_nil (extractPairs_valid raw)

/-! ### Round-trip: reparsing a serialized store -/

theorem validTok_spec (s : String) (h : validTok s = true) :
    s.data ≠ [] ∧ ∀ c ∈ s.data, c ≠ '"' ∧ pyLineBreak c = false := by
  simp only [validTok, Bool.and_eq_true, Bool.not_eq_true', List.isEmpty_eq_false,
    List.all_eq_true] at h
  obtain ⟨h1, h2⟩ := h
  refine ⟨h1, fun c hc => ?_⟩
  have := h2 c hc
  simp only [Bool.and_eq_true, bne_iff_ne, Bool.not_eq_true'] at this
  exact this

theorem pairLine_data (k v : String) :
    (pairLine (k, v)).data =
      '\t' :: '"' :: (k.data ++ '"' :: '\t' :: '\t' :: '"' :: (v.data ++ ['"'])) := by
  show ("\t\"" ++ k ++ "\"\t\t\"" ++ v ++ "\"").data = _
  simp [String.data_append]

theorem quoteTok_pos (t rest : List Char) (hne : t ≠ [])
    (hq : ∀ c ∈ t, c ≠ '"') :
    quoteTok ('"' :: (t ++ '"' :: rest)) = some (t, rest) := by
  have hall : ∀ c ∈ t, (fun x => x != '"') c = true := by
    intro c hc
    simpa using hq c hc
  simp only [quoteTok, if_pos rfl]
  rw [List.takeWhile_append_of_pos hall, List.dropWhile_append_of_pos hall]
  rw [List.takeWhile_cons_of_neg (by simp), List.dropWhile_cons_of_neg (by simp)]
  simp [List.isEmpty_iff, hne]

theorem wsRun_tabs (rest : List Char) :
    wsRun ('\t' :: '\t' :: '"' :: rest) = some ('"' :: rest) := by
  have h1 : isPySpace '\t' = true := by decide
  have h2 : isPySpace '"' = false := by decide
  simp [wsRun, h1, h2]

theorem matchPair_pairLine (k v : String) (hk : validTok k = true)
    (hv : validTok v = true) :
    matchPair ('"' :: (k.data ++ '"' :: '\t' :: '\t' :: '"' :: (v.data ++ ['"']))) =
      some (k, v, []) := by
  obtain ⟨hkne, hkc⟩ := validTok_spec k hk
  obtain ⟨hvne, hvc⟩ := validTok_spec v hv
  unfold matchPair
  rw [quoteTok_pos k.data ('\t' :: '\t' :: '"' :: (v.data ++ ['"'])) hkne
    (fun c hc => (hkc c hc).1)]
  rw [Option.some_bind]
  rw [wsRun_tabs (v.data ++ ['"'])]
  rw [Option.some_bind]
  rw [show (v.data ++ ['"'] : List Char) = v.data ++ '"' :: [] from rfl]
  rw [quoteTok_pos v.data [] hvne (fun c hc => (hvc c hc).1)]
  simp [String_mk_data]

theorem findPairs_pairLine (k v : String) (hk : validTok k = true)
    (hv : validTok v = true) :
    findPairs (pairLine (k, v)).data = [(k, v)] := by
  rw [pairLine_data]
  have h1 : matchPair ('\t' :: '"' ::
      (k.data ++ '"' :: '\t' :: '\t' :: '"' :: (v.data ++ ['"']))) = none := by
    simp [matchPair, quoteTok]
  rw [findPairs_cons_none _ _ h1]
  rw [findPairs_cons_some _ _ k v [] (matchPair_pairLine k v hk hv)]
  rfl

theorem serialize_lines_valid (st : Store) (h : StoreOk st) :
    ∀ l ∈ ["\"video.cfg\"", "\x7b"] ++ st.map pairLine ++ ["\x7d"],
      l ≠ "" ∧ ∀ c ∈ l.data, pyLineBreak c = false := by
  intro l hl
  simp only [List.mem_append, List.mem_cons, List.mem_singleton, List.mem_map,
    List.not_mem_nil, or_false] at hl
  rcases hl with ((rfl | rfl) | ⟨kv, hkv, rfl⟩) | rfl
  · exact ⟨by decide, by decide⟩
  · exact ⟨by decide, by decide⟩
  · obtain ⟨hk, hv⟩ := h.2 kv hkv
    obtain ⟨-, hkc⟩ := validTok_spec kv.1 hk
    obtain ⟨-, hvc⟩ := validTok_spec kv.2 hv
    constructor
    · intro hc
      have hdata : (pairLine kv).data = [] := by rw [hc]
      rw [show kv = (kv.1, kv.2) from rfl, pairLine_data] at hdata
      simp at hdata
    · intro c hc
      rw [show kv = (kv.1, kv.2) from rfl, pairLine_data] at hc
      simp only [List.mem_cons, List.mem_append, List.mem_singleton,
        List.not_mem_nil, or_false] at hc
      rcases hc with rfl | rfl | hc | rfl | rfl | rfl | rfl | hc | rfl
      · decide
      · decide
      · exact (hkc c hc).2
      · decide
      · decide
      · decide
      · decide
      · exact (hvc c hc).2
      · decide
  · exact ⟨by decide, by decide⟩

theorem splitlines_serialize (st : Store) (h : StoreOk st) :
    splitlines (serialize_config st) =
      "\"video.cfg\"" :: "\x7b" :: st.map pairLine ++ ["\x7d"] := by
  unfold serialize_config
  rw [splitlines_joinLines _ (by simp) (serialize_lines_valid st h)]
  rfl

theorem flatten_map_singleton (l : List (String × String)) :
    (l.map fun a => [a]).flatten = l := by
  induction l with
  | nil => rfl
  | cons a rest ih => simp [ih]

theorem extractPairs_serialize (st : Store) (h : StoreOk st) :
    extractPairs (serialize_config st) = st := by
  unfold extractPairs
  rw [splitlines_serialize st h]
  rw [show ("\"video.cfg\"" :: "\x7b" :: st.map pairLine ++ ["\x7d"] : List String) =
    ["\"video.cfg\"", "\x7b"] ++ st.map pairLine ++ ["\x7d"] from rfl]
  rw [List.map_append, List.map_append, List.flatten_append, List.flatten_append]
  rw [List.map_map]
  have hthis : st.map ((fun line => findPairs line.data) ∘ pairLine) =
      st.map fun kv => [kv] := by
    apply List.map_congr_left
    intro kv hkv
    obtain ⟨hk, hv⟩ := h.2 kv hkv
    show findPairs (pairLine kv).data = [kv]
    rw [show kv = (kv.1, kv.2) from rfl]
    exact findPairs_pairLine kv.1 kv.2 hk hv
  rw [hthis, flatten_map_singleton]
  rw [show ((["\"video.cfg\"", "\x7b"] : List String).map
    (fun line => findPairs line.data)).flatten = [] from by decide]
  rw [show ((["\x7d"] : List String).map
    (fun line => findPairs line.data)).flatten = [] from by decide]
  simp

theorem parse_serialize_of_storeOk (st : Store) (h : StoreOk st) :
    parse_config (serialize_config st) = st := by
  rw [parse_config_eq_foldl, extractPairs_serialize st h]
  simpa using foldl_insert_of_fresh st [] (by simp) h.1

/-! ### Validity of values written back by the widgets -/

theorem validTok_of (s : String) (h1 : s.data ≠ [])
    (h2 : ∀ c ∈ s.data, c ≠ '"' ∧ pyLineBreak c = false) : validTok s = true := by
  simp only [validTok, Bool.and_eq_true, Bool.not_eq_true', List.isEmpty_eq_false,
    List.all_eq_true]
  refine ⟨h1, fun c hc => ?_⟩
  simp [Bool.and_eq_true, bne_iff_ne, (h2 c hc).1, (h2 c hc).2]

theorem encodeBool_valid (b : Bool) : validTok (encodeBool b) = true := by
  cases b <;> decide

theorem digitChar_ok (r : Nat) (h : r < 10) :
    Char.ofNat (48 + r) ≠ '"' ∧ pyLineBreak (Char.ofNat (48 + r)) = false := by
  interval_cases r <;> exact ⟨by decide, by decide⟩

theorem pyStrNatAux_chars : ∀ (fuel n : Nat) (acc : List Char),
    (∀ c ∈ acc, c ≠ '"' ∧ pyLineBreak c = false) →
    ∀ c ∈ pyStrNatAux fuel n acc, c ≠ '"' ∧ pyLineBreak c = false := by
  intro fuel
  induction fuel with
  | zero => intro n acc hacc c hc; exact hacc c hc
  | succ f ih =>
    intro n acc hacc c hc
    by_cases hn : n = 0
    · rw [pyStrNatAux, if_pos hn] at hc
      exact hacc c hc
    · rw [pyStrNatAux, if_neg hn] at hc
      refine ih (n / 10) _ ?_ c hc
      intro x hx
      rcases List.mem_cons.mp hx with rfl | hx
      · exact digitChar_ok (n % 10) (Nat.mod_lt _ (by norm_num))
      · exact hacc x hx

theorem pyStrNatAux_len (fuel : Nat) : ∀ (n : Nat) (acc : List Char),
    acc.length ≤ (pyStrNatAux fuel n acc).length := by
  induction fuel with
  | zero => intro n acc; exact le_refl _
  | succ f ih =>
    intro n acc
    by_cases hn : n = 0
    · rw [pyStrNatAux, if_pos hn]
    · rw [pyStrNatAux, if_neg hn]
      have := ih (n / 10) (Char.ofNat (48 + n % 10) :: acc)
      simp only [List.length_cons] at this
      omega

theorem pyStrNat_valid (n : Nat) : validTok (pyStrNat n) = true := by
  unfold pyStrNat
  by_cases hn : n = 0
  · rw [if_pos hn]; decide
  · rw [if_neg hn]
    apply validTok_of
    · show pyStrNatAux n n [] ≠ []
      obtain ⟨m, rfl⟩ := Nat.exists_eq_succ_of_ne_zero hn
      rw [pyStrNatAux, if_neg hn]
      have := pyStrNatAux_len m ((m + 1) / 10) (Char.ofNat (48 + (m + 1) % 10) :: [])
      intro hc
      rw [hc] at this
      simp at this
    · exact pyStrNatAux_chars n n [] (by simp)

theorem pyStr_valid (i : Int) : validTok (pyStr i) = true := by
  unfold pyStr
  by_cases hneg : i < 0
  · rw [if_pos hneg]
    have hv := pyStrNat_valid (-i).toNat
    obtain ⟨h1, h2⟩ := validTok_spec _ hv
    apply validTok_of
    · simp [String.data_append]
    · intro c hc
      simp only [String.data_append, List.mem_append] at hc
      rcases hc with hc | hc
      · simp only [show ("-" : String).data = ['-'] from rfl, List.mem_singleton] at hc
        subst hc
        exact ⟨by decide, by decide⟩
      · exact h2 c hc
  · rw [if_neg hneg]
    exact pyStrNat_valid i.toNat

/-- Enum data strings declared by a schema entry are valid tokens (it is a
property of the concrete table, checked by evaluation). -/
def entryEnumDataOk (e : SchemaEntry) : Bool :=
  match e.kind with
  | .enumKind opts => (comboItems opts).all (fun it => validTok it.1)
  | _ => true

theorem schema_all_ok :
    SETTINGS_SCHEMA.all (fun kv => validTok kv.1 && entryEnumDataOk kv.2) = true := by
  decide

theorem lookupSchema_mem (k : String) (e : SchemaEntry)
    (h : lookupSchema k = some e) : (k, e) ∈ SETTINGS_SCHEMA := by
  simp only [lookupSchema, Option.map_eq_some'] at h
  obtain ⟨⟨k', e'⟩, hf, he⟩ := h
  have hm := List.mem_of_find?_eq_some hf
  have hp := List.find?_some hf
  simp only [beq_iff_eq] at hp
  subst hp
  subst he
  exact hm

theorem schema_key_valid (k : String) (e : SchemaEntry)
    (h : (k, e) ∈ SETTINGS_SCHEMA) : validTok k = true := by
  have := List.all_eq_true.mp schema_all_ok (k, e) h
  simp only [Bool.and_eq_true] at this
  exact this.1

theorem schema_enum_ok (k lbl : String) (opts : List String)
    (h : (k, ⟨lbl, .enumKind opts⟩) ∈ SETTINGS_SCHEMA) :
    ∀ it ∈ comboItems opts, validTok it.1 = true := by
  have := List.all_eq_true.mp schema_all_ok _ h
  simp only [Bool.and_eq_true] at this
  have h2 := this.2
  simp only [entryEnumDataOk, List.all_eq_true] at h2
  exact h2

theorem currentDataStr_valid (opts : List String)
    (hopts : ∀ it ∈ comboItems opts, validTok it.1 = true) (i : Nat) :
    validTok (currentDataStr opts i) = true := by
  unfold currentDataStr
  cases hg : (comboItems opts).get? i with
  | none => decide
  | some it => exact hopts it (List.get?_mem hg)

/-! ### collect_widget_values: preservation lemmas -/

theorem collectOne_other (ui : UIState) (st : Store) (key q : String)
    (hkq : key ≠ q) :
    lookupStore (collectOne ui st key) q = lookupStore st q := by
  unfold collectOne
  cases lookupSchema key with
  | none => rfl
  | some e =>
    obtain ⟨lbl, kind⟩ := e
    cases kind with
    | boolKind => exact insertOrUpdate_lookup_other st key _ q hkq
    | intKind mn mx stp => exact insertOrUpdate_lookup_other st key _ q hkq
    | enumKind opts => exact insertOrUpdate_lookup_other st key _ q hkq
    | metaKind => rfl

theorem collectOne_unknown_or_meta (ui : UIState) (st : Store) (key q : String)
    (hq : lookupSchema q = none ∨ ∃ e, lookupSchema q = some e ∧ e.kind = .metaKind) :
    lookupStore (collectOne ui st key) q = lookupStore st q := by
  by_cases hkq : key = q
  · subst hkq
    rcases hq with hq | ⟨e, hq, hm⟩
    · unfold collectOne
      rw [hq]
    · unfold collectOne
      rw [hq]
      obtain ⟨lbl, kind⟩ := e
      simp only [SchemaEntry.kind] at hm
      subst hm
      rfl
  · exact collectOne_other ui st key q hkq

theorem collect_unknown_or_meta (ui : UIState) (st : Store) (q : String)
    (hq : lookupSchema q = none ∨ ∃ e, lookupSchema q = some e ∧ e.kind = .metaKind) :
    lookupStore (collect_widget_values ui st) q = lookupStore st q := by
  unfold collect_widget_values
  generalize widgetKeys = ks
  induction ks generalizing st with
  | nil => rfl
  | cons key rest ih =>
    simp only [List.foldl_cons]
    rw [ih (collectOne ui st key)]
    exact collectOne_unknown_or_meta ui st key q hq

theorem collectOne_storeOk (ui : UIState) (st : Store) (key : String)
    (h : StoreOk st) : StoreOk (collectOne ui st key) := by
  unfold collectOne
  cases hq : lookupSchema key with
  | none => exact h
  | some e =>
    have hmem := lookupSchema_mem key e hq
    have hkey : validTok key = true := schema_key_valid key e hmem
    obtain ⟨lbl, kind⟩ := e
    cases kind with
    | boolKind =>
      exact insertOrUpdate_storeOk st key _ h hkey (encodeBool_valid _)
    | intKind mn mx stp =>
      exact insertOrUpdate_storeOk st key _ h hkey (pyStr_valid _)
    | enumKind opts =>
      exact insertOrUpdate_storeOk st key _ h hkey
        (currentDataStr_valid opts (schema_enum_ok key lbl opts hmem) _)
    | metaKind => exact h

theorem collect_storeOk (ui : UIState) (st : Store) (h : StoreOk st) :
    StoreOk (collect_widget_values ui st) := by
  unfold collect_widget_values
  generalize widgetKeys = ks
  induction ks generalizing st with
  | nil => exact h
  | cons key rest ih =>
    simp only [List.foldl_cons]
    exact ih (collectOne ui st key) (collectOne_storeOk ui st key h)

/-! ### Enum scan lemmas -/

theorem enumFind_none (l : List (String × String)) (v : String)
    (h : ∀ it ∈ l, it.1 ≠ v) : ∀ i, enumFind l v i = none := by
  induction l with
  | nil => intro i; rfl
  | cons it rest ih =>
    intro i
    unfold enumFind
    rw [if_neg (h it (by simp))]
    exact ih (fun x hx => h x (List.mem_cons_of_mem _ hx)) (i + 1)

theorem enumFind_first (l : List (String × String)) (v : String) :
    ∀ (i : Nat) (it : String × String) (base : Nat),
    l.get? i = some it → it.1 = v →
    (l.take i).all (fun x => x.1 != v) = true →
    enumFind l v base = some (base + i) := by
  induction l with
  | nil => intro i it base hg; simp at hg
  | cons x rest ih =>
    intro i it base hg hv htake
    cases i with
    | zero =>
      simp only [List.get?_cons_zero, Option.some.injEq] at hg
      subst hg
      unfold enumFind
      rw [if_pos hv]
      simp
    | succ j =>
      simp only [List.get?_cons_succ] at hg
      simp only [List.take_succ_cons, List.all_cons, Bool.and_eq_true, bne_iff_ne] at htake
      unfold enumFind
      rw [if_neg htake.1]
      rw [ih j it (base + 1) hg hv htake.2]
      congr 1
      omega

/-! ### Emptiness of the parsed store -/

theorem insertOrUpdate_ne_nil (st : Store) (k v : String) :
    insertOrUpdate st k v ≠ [] := by
  cases st with
  | nil => simp [insertOrUpdate]
  | cons kv rest =>
    obtain ⟨k', v'⟩ := kv
    unfold insertOrUpdate
    split_ifs <;> simp

theorem foldl_insert_ne_nil (ps : List (String × String)) (st : Store)
    (hst : st ≠ []) :
    ps.foldl (fun c kv => insertOrUpdate c kv.1 kv.2) st ≠ [] := by
  induction ps generalizing st with
  | nil => exact hst
  | cons kv rest ih =>
    simp only [List.foldl_cons]
    exact ih _ (insertOrUpdate_ne_nil st kv.1 kv.2)

/-! ### joinLines ends with its last line -/

theorem joinLines_last (ls : List String) (x : String) :
    ∃ p : String, joinLines (ls ++ [x]) = p ++ x := by
  induction ls with
  | nil => exact ⟨"", by simp [joinLines]⟩
  | cons l rest ih =>
    obtain ⟨p, hp⟩ := ih
    cases rest with
    | nil =>
      refine ⟨l ++ "\n", ?_⟩
      show joinLines (l :: [x]) = l ++ "\n" ++ x
      rw [joinLines_cons₂]
      rfl
    | cons l2 rest2 =>
      refine ⟨l ++ "\n" ++ p, ?_⟩
      rw [List.cons_append, List.cons_append, joinLines_cons₂]
      rw [List.cons_append] at hp
      rw [hp, String.append_assoc, String.append_assoc]
      rw [String.append_assoc]

/-! ### Claim theorems -/

/-- C1: Round-trip.  For every store produced by `parse_config`, parsing
its serialization yields a store with exactly the same keys, values and
key order (the two ordered association lists are equal). -/
theorem parse_serialize_parse_roundtrip (raw : String) :
    parse_config (serialize_config (parse_config raw)) = parse_config raw :=
  parse_serialize_of_storeOk (parse_config raw) (parse_config_storeOk raw)

/-- C2: Duplicate-key policy.  When a key occurs in more than one matched
pair of the input, the parsed store maps it to the value of its last
occurrence (`specLastValue`), and the store's key order is the sequence of
keys in order of first occurrence (`specFirstKeys`). -/
theorem parse_duplicate_key_policy (raw : String) (k : String)
    (_hdup : 2 ≤ ((extractPairs raw).map Prod.fst).count k) :
    lookupStore (parse_config raw) k = specLastValue (extractPairs raw) k ∧
    (parse_config raw).map Prod.fst =
      specFirstKeys ((extractPairs raw).map Prod.fst) := by
  constructor
  · rw [parse_config_eq_foldl, foldl_insert_lookup]
    cases h : specLastValue (extractPairs raw) k <;> rfl
  · rw [parse_config_eq_foldl, foldl_insert_keys]
    simp [specFirstKeys]

/-- Witness for C2 at a concrete input with a duplicated key. -/
theorem parse_duplicate_key_policy_witness :
    2 ≤ ((extractPairs "\"a\" \"1\"\n\"b\" \"2\"\n\"a\" \"3\"").map Prod.fst).count "a" ∧
    (lookupStore (parse_config "\"a\" \"1\"\n\"b\" \"2\"\n\"a\" \"3\"") "a" =
       specLastValue (extractPairs "\"a\" \"1\"\n\"b\" \"2\"\n\"a\" \"3\"") "a" ∧
     (parse_config "\"a\" \"1\"\n\"b\" \"2\"\n\"a\" \"3\"").map Prod.fst =
       specFirstKeys ((extractPairs "\"a\" \"1\"\n\"b\" \"2\"\n\"a\" \"3\"").map Prod.fst)) :=
  ⟨by decide, parse_duplicate_key_policy _ "a" (by decide)⟩

/-- C3: BoundedInt decode with clamping.  The generic integer decode of
`populate_widgets` parses the raw string, falls back to the schema `min`
on absence or parse failure, and clamps a parsed value into `[min, max]`;
for `setting.max_fps` (schema `min` 0, `max` 999, decoded through the
composite widget whose spin/slider range is `[0, 999]`), `"5000"` decodes
to `999`, `"-10"`, any non-numeric string and an absent key decode
to `0`. -/
theorem bounded_int_decode_clamps :
    (∀ mn mx : Int, mn ≤ mx → decodeInt mn mx none = mn) ∧
    (∀ (mn mx : Int) (s : String), mn ≤ mx → pyInt? s = none →
      decodeInt mn mx (some s) = mn) ∧
    (∀ (mn mx : Int) (s : String) (n : Int), mn ≤ mx → pyInt? s = some n →
      decodeInt mn mx (some s) = max mn (min mx n)) ∧
    lookupSchema "setting.max_fps" = some ⟨"FPS Limit", .intKind 0 999 none⟩ ∧
    (∀ val : Option String, decodeIntFps 0 val = decodeInt 0 999 val) ∧
    decodeIntFps 0 (some "5000") = 999 ∧
    decodeIntFps 0 (some "-10") = 0 ∧
    (∀ s : String, pyInt? s = none → decodeIntFps 0 (some s) = 0) ∧
    decodeIntFps 0 none = 0 := by
  refine ⟨?_, ?_, ?_, by decide, ?_, by decide, by decide, ?_, by decide⟩
  · intro mn mx h
    simp only [decodeInt, qtSpinSet]
    omega
  · intro mn mx s h hp
    simp only [decodeInt, hp, qtSpinSet]
    omega
  · intro mn mx s n h hp
    simp only [decodeInt, hp, qtSpinSet]
    omega
  · intro val
    cases val with
    | none => decide
    | some s =>
      cases hp : pyInt? s with
      | none => simp only [decodeIntFps, decodeInt, hp, qtSpinSet]
      | some n => simp only [decodeIntFps, decodeInt, hp, qtSpinSet]; omega
  · intro s hp
    simp only [decodeIntFps, hp, qtSpinSet]
    omega

/-- Witness for C3 at concrete bounds and raw strings. -/
theorem bounded_int_decode_clamps_witness :
    ((0 : Int) ≤ 999 ∧ pyInt? "5000" = some 5000 ∧
      decodeInt 0 999 (some "5000") = max 0 (min 999 5000)) ∧
    (pyInt? "ultra" = none ∧ decodeInt 0 999 (some "ultra") = 0) :=
  ⟨⟨by decide, by decide,
      bounded_int_decode_clamps.2.2.1 0 999 "5000" 5000 (by decide) (by decide)⟩,
    ⟨by decide, bounded_int_decode_clamps.2.1 0 999 "ultra" (by decide) (by decide)⟩⟩

/-- C4: Serialization format.  Serializing the singleton store
`setting.fullscreen ↦ "1"` yields the exact literal text; every
serialization ends with the closing brace (no trailing newline); and for
a well-formed store the serialized text splits into the header line, the
opening brace, one tab-indented quoted line per pair in store order, and
the closing brace. -/
theorem serialize_config_format :
    serialize_config [("setting.fullscreen", "1")] =
      "\"video.cfg\"\n\x7b\n\t\"setting.fullscreen\"\t\t\"1\"\n\x7d" ∧
    (∀ st : Store, (serialize_config st).data.getLast? = some '\x7d') ∧
    (∀ st : Store, StoreOk st →
      splitlines (serialize_config st) =
        "\"video.cfg\"" :: "\x7b" :: st.map pairLine ++ ["\x7d"]) := by
  refine ⟨by decide, ?_, fun st h => splitlines_serialize st h⟩
  intro st
  unfold serialize_config
  obtain ⟨p, hp⟩ := joinLines_last (["\"video.cfg\"", "\x7b"] ++ st.map pairLine) "\x7d"
  rw [hp, String.data_append]
  rw [show ("\x7d" : String).data = ['\x7d'] from rfl]
  exact List.getLast?_concat _

/-- Witness for C4's conditional part at a concrete well-formed store. -/
theorem serialize_config_format_witness :
    StoreOk [("setting.fullscreen", "1")] ∧
    splitlines (serialize_config [("setting.fullscreen", "1")]) =
      "\"video.cfg\"" :: "\x7b" ::
        [("setting.fullscreen", "1")].map pairLine ++ ["\x7d"] :=
  ⟨by decide, serialize_config_format.2.2 [("setting.fullscreen", "1")] (by decide)⟩

/-- C5: Enum decode with fallback.  The enum decode scans the combo items
(declared options, split on the first colon) in declared order and selects
the first item whose data equals the raw value; when the key is absent or
no item matches, it selects index 0, the first declared option.  For
`setting.cpu_level`, `"9"` selects the first option (data `"0"`, label
`"Low"`) and `"2"` selects the matching item (data `"2"`, label
`"High"`) at index 2. -/
theorem enum_decode_first_match_fallback :
    (∀ options : List String, enumSelect options none = 0) ∧
    (∀ (options : List String) (v : String),
      (comboItems options).all (fun it => it.1 != v) = true →
      enumSelect options (some v) = 0) ∧
    (∀ (options : List String) (v : String) (i : Nat) (it : String × String),
      (comboItems options).get? i = some it → it.1 = v →
      ((comboItems options).take i).all (fun x => x.1 != v) = true →
      enumSelect options (some v) = i) ∧
    lookupSchema "setting.cpu_level" =
      some ⟨"CPU Detail Level", .enumKind ["0:Low", "1:Medium", "2:High", "3:Ultra"]⟩ ∧
    enumSelect ["0:Low", "1:Medium", "2:High", "3:Ultra"] (some "9") = 0 ∧
    (comboItems ["0:Low", "1:Medium", "2:High", "3:Ultra"]).get? 0 =
      some ("0", "Low") ∧
    enumSelect ["0:Low", "1:Medium", "2:High", "3:Ultra"] (some "2") = 2 ∧
    (comboItems ["0:Low", "1:Medium", "2:High", "3:Ultra"]).get? 2 =
      some ("2", "High") := by
  refine ⟨fun options => rfl, ?_, ?_, by decide, by decide, by decide, by decide,
    by decide⟩
  · intro options v hall
    simp only [List.all_eq_true, bne_iff_ne] at hall
    show (match enumFind (comboItems options) v 0 with
      | some i => i
      | none => 0) = 0
    rw [enumFind_none (comboItems options) v hall 0]
  · intro options v i it hg hv htake
    show (match enumFind (comboItems options) v 0 with
      | some i => i
      | none => 0) = i
    rw [enumFind_first (comboItems options) v i it 0 hg hv htake]
    show 0 + i = i
    omega

/-- Witness for C5's conditional parts at the `setting.cpu_level`
options. -/
theorem enum_decode_first_match_fallback_witness :
    ((comboItems ["0:Low", "1:Medium", "2:High", "3:Ultra"]).get? 2 =
       some ("2", "High") ∧
     ((comboItems ["0:Low", "1:Medium", "2:High", "3:Ultra"]).take 2).all
       (fun x => x.1 != "2") = true ∧
     enumSelect ["0:Low", "1:Medium", "2:High", "3:Ultra"] (some "2") = 2) ∧
    ((comboItems ["0:Low", "1:Medium", "2:High", "3:Ultra"]).all
       (fun it => it.1 != "9") = true ∧
     enumSelect ["0:Low", "1:Medium", "2:High", "3:Ultra"] (some "9") = 0) :=
  ⟨⟨by decide, by decide,
      enum_decode_first_match_fallback.2.2.1 ["0:Low", "1:Medium", "2:High", "3:Ultra"]
        "2" 2 ("2", "High") (by decide) rfl (by decide)⟩,
    ⟨by decide,
      enum_decode_first_match_fallback.2.1 ["0:Low", "1:Medium", "2:High", "3:Ultra"]
        "9" (by decide)⟩⟩

/-- C6: Boolean coercion.  Decode yields true exactly for the stored raw
string `"1"` (any other value and an absent key decode to false), and
encode stores `"1"` for true, `"0"` for false. -/
theorem bool_coercion_decode_encode :
    (∀ val : Option String, decodeBool val = true ↔ val = some "1") ∧
    decodeBool none = false ∧ encodeBool true = "1" ∧ encodeBool false = "0" := by
  refine ⟨?_, rfl, rfl, rfl⟩
  intro val
  cases val with
  | none => simp [decodeBool]
  | some s => simp [decodeBool]

/-- C7: Unknown-key and metadata preservation.  For every key with no
schema entry or with a `"meta"` schema kind, the write-back step
`collect_widget_values` does not change the key's value, and a full
parse / untouched-edit / serialize / reparse cycle reproduces the key's
original value. -/
theorem unknown_and_meta_keys_preserved (ui : UIState) (st : Store) (k : String)
    (hk : lookupSchema k = none ∨
      ∃ e, lookupSchema k = some e ∧ e.kind = .metaKind) :
    lookupStore (collect_widget_values ui st) k = lookupStore st k ∧
    ∀ raw : String,
      lookupStore (parse_config (serialize_config
        (collect_widget_values ui (parse_config raw)))) k =
      lookupStore (parse_config raw) k := by
  refine ⟨collect_unknown_or_meta ui st k hk, ?_⟩
  intro raw
  rw [parse_serialize_of_storeOk _ (collect_storeOk ui _ (parse_config_storeOk raw))]
  exact collect_unknown_or_meta ui _ k hk

/-- Witness for C7 at a concrete schema-unknown key and at the metadata
key `Version`. -/
theorem unknown_and_meta_keys_preserved_witness :
    (lookupSchema "sound.volume" = none ∨
      ∃ e, lookupSchema "sound.volume" = some e ∧ e.kind = .metaKind) ∧
    (lookupStore (collect_widget_values uiZero [("sound.volume", "0.5")])
        "sound.volume" = lookupStore [("sound.volume", "0.5")] "sound.volume" ∧
     ∀ raw : String,
      lookupStore (parse_config (serialize_config
        (collect_widget_values uiZero (parse_config raw)))) "sound.volume" =
      lookupStore (parse_config raw) "sound.volume") :=
  ⟨Or.inl (by decide),
    unknown_and_meta_keys_preserved uiZero [("sound.volume", "0.5")] "sound.volume"
      (Or.inl (by decide))⟩

/-- C8: Parser totality.  The embedded `parse_config` is a total function
returning a store for every input (no error channel exists in the code:
unmatched fragments and structural tokens are silently dropped); the
returned store is empty exactly when the input contains no matched pair,
and in particular a malformed input with structural tokens and a partial
fragment parses to the empty store. -/
theorem parse_config_total_empty_on_no_pairs :
    (∀ raw : String, parse_config raw = [] ↔ extractPairs raw = []) ∧
    parse_config "\"video.cfg\"\n\x7b\n   malformed \"fragment\n\x7d" = [] := by
  constructor
  · intro raw
    rw [parse_config_eq_foldl]
    constructor
    · intro h
      cases hps : extractPairs raw with
      | nil => rfl
      | cons kv rest =>
        rw [hps] at h
        exact absurd h
          (by
            simp only [List.foldl_cons]
            exact foldl_insert_ne_nil rest _ (insertOrUpdate_ne_nil [] kv.1 kv.2))
    · intro h
      rw [h]
      rfl
  · decide

/-- C9 counterexample: decoding a key with no schema entry does NOT fail
with an `UnknownKeyError`; the populate step issues no widget update and
the collect step returns the store unchanged — the operation is a silent
no-op, contradicting the claimed error. -/
theorem unknown_key_decode_silent_noop_cex :
    populateOne [("custom.key", "7")] "custom.key" = none ∧
    collectOne uiZero [("custom.key", "7")] "custom.key" = [("custom.key", "7")] :=
  ⟨by decide, by decide⟩

/-- C9 amended: decoding or encoding a key that has no entry in the schema
registry is a silent no-op — `populate_widgets` issues no widget update
for it and `collect_widget_values` leaves the store unchanged; no
exception is raised. -/
theorem unknown_key_decode_noop (st : Store) (ui : UIState) (k : String)
    (hk : lookupSchema k = none) :
    populateOne st k = none ∧ collectOne ui st k = st := by
  unfold populateOne collectOne
  rw [hk]
  exact ⟨rfl, rfl⟩

/-- Witness for the amended C9 at a concrete unknown key. -/
theorem unknown_key_decode_noop_witness :
    lookupSchema "steam.userid" = none ∧
    (populateOne [] "steam.userid" = none ∧
      collectOne uiZero [] "steam.userid" = []) :=
  ⟨by decide, unknown_key_decode_noop [] uiZero "steam.userid" (by decide)⟩

/-- C10: Parsed-store value invariant.  Every key and value in a store
returned by `parse_config` is a non-empty string containing no double
quote and no newline character (empty quoted keys or values are never
produced: the pattern requires at least one character). -/
theorem parse_config_value_invariant (raw : String) (k v : String)
    (h : (k, v) ∈ parse_config raw) :
    k ≠ "" ∧ v ≠ "" ∧ (∀ c ∈ k.data, c ≠ '"' ∧ c ≠ '\n') ∧
    (∀ c ∈ v.data, c ≠ '"' ∧ c ≠ '\n') := by
  have hok := parse_config_storeOk raw
  obtain ⟨hk, hv⟩ := hok.2 (k, v) h
  obtain ⟨hk1, hk2⟩ := validTok_spec k hk
  obtain ⟨hv1, hv2⟩ := validTok_spec v hv
  refine ⟨fun hc => hk1 (by rw [hc]), fun hc => hv1 (by rw [hc]), ?_, ?_⟩
  · intro c hc
    refine ⟨(hk2 c hc).1, ?_⟩
    intro hceq
    have hb := (hk2 c hc).2
    rw [hceq] at hb
    exact absurd hb (by decide)
  · intro c hc
    refine ⟨(hv2 c hc).1, ?_⟩
    intro hceq
    have hb := (hv2 c hc).2
    rw [hceq] at hb
    exact absurd hb (by decide)

/-- Witness for C10 at a concrete parsed pair. -/
theorem parse_config_value_invariant_witness :
    ("fps", "300") ∈ parse_config "\"fps\" \"300\"" ∧
    ("fps" ≠ "" ∧ "300" ≠ "" ∧
      (∀ c ∈ ("fps" : String).data, c ≠ '"' ∧ c ≠ '\n') ∧
      (∀ c ∈ ("300" : String).data, c ≠ '"' ∧ c ≠ '\n')) :=
  ⟨by decide, parse_config_value_invariant "\"fps\" \"300\"" "fps" "300" (by decide)⟩

/-- Witness for C8 at a concrete input. -/
theorem parse_config_total_empty_on_no_pairs_witness :
    parse_config "\x7b\n\x7d" = [] ↔ extractPairs "\x7b\n\x7d" = [] :=
  parse_config_total_empty_on_no_pairs.1 "\x7b\n\x7d"

/-- Witness for C6 at a concrete raw value. -/
theorem bool_coercion_decode_encode_witness :
    decodeBool (some "0") = true ↔ some "0" = some "1" :=
  bool_coercion_decode_encode.1 (some "0")

end CS2Cfg
